import Mathlib

/-!
Shallow embedding of the PDF extraction reconciliation pipeline of
`src/unnamed/part_000` (the `EnhancedPDFProcessor` React component).

Modelling conventions:
* JavaScript numbers are modelled as exact rationals (`ℚ`); the thresholds
  appearing in the code (`0.01`, `0.02`, `0.03`, `1.2`, …) are exactly
  representable and the claims under study only compare such constants.
* JavaScript strings are modelled as `List Char`; `String.prototype.trim`,
  `toLowerCase`, `split(/\s+/)`, `join` and `includes` are given explicit
  models below.
* `nanoid()` chunk ids and the `id` string fields of lines/blocks are opaque
  random identifiers irrelevant to every claim and are omitted from the
  embedded records.
* `Array.prototype.sort` is a stable comparison sort; it is modelled with
  `List.insertionSort` (stable insertion sort, which is what engines use for
  short arrays).  The comparator in `groupWordsIntoLines` is not a consistent
  comparison function, for which ECMAScript leaves the resulting order
  implementation-defined; any deterministic stable sort exhibits the
  order-dependence proved below.
* Thrown exceptions are modelled with `Except`.
-/

namespace PdfExtract

/-- Model of a JavaScript string: a list of characters. -/
abbrev Str := List Char

/-- Model of `String.prototype.trim`: drop whitespace from both ends. -/
def jsTrim (s : Str) : Str :=
  ((s.dropWhile Char.isWhitespace).reverse.dropWhile Char.isWhitespace).reverse

/-- Model of `String.prototype.toLowerCase`. -/
def jsToLower (s : Str) : Str := s.map Char.toLower

/-- Whitespace-separated tokens of a string (all tokens are nonempty).
Auxiliary for the model of `split(/\s+/)`. -/
def wsTokensAux : Str → Str → List Str
  | [], cur => if cur = [] then [] else [cur.reverse]
  | c :: rest, cur =>
    if c.isWhitespace then
      if cur = [] then wsTokensAux rest [] else cur.reverse :: wsTokensAux rest []
    else wsTokensAux rest (c :: cur)

/-- Nonempty whitespace-separated tokens of a string. -/
def wsTokens (s : Str) : List Str := wsTokensAux s []

/-- Model of JavaScript `s.split(/\s+/)`: like `wsTokens`, but a leading
(resp. trailing) whitespace run contributes a leading (resp. trailing) empty
string, and splitting the empty string yields `[""]`. -/
def jsSplitWs (s : Str) : List Str :=
  if s = [] then [[]]
  else
    (if s.head?.any Char.isWhitespace then [([] : Str)] else [])
      ++ wsTokens s
      ++ (if s.getLast?.any Char.isWhitespace then [([] : Str)] else [])

/-- Model of JavaScript `arr.join(' ')` for an array of strings. -/
def joinSpace (l : List Str) : Str := List.intercalate [' '] l

/-- Model of JavaScript `arr.join('\n')` for an array of strings. -/
def joinNl (l : List Str) : Str := List.intercalate ['\n'] l

/-- Model of JavaScript `haystack.includes(needle)`: contiguous substring. -/
def jsIncludes (haystack needle : Str) : Bool := decide (needle <:+: haystack)

/-- Normalized bounding box as used by the intermediate representation
(`BoundingBox` in `@/types`): `x`, `y`, `width`, `height`. -/
structure BoundingBox where
  x : ℚ
  y : ℚ
  width : ℚ
  height : ℚ
  deriving DecidableEq, Repr

/-- An atomic recognized token (`Word` in `@/types`). -/
structure Word where
  text : Str
  bbox : BoundingBox
  confidence : ℚ
  fontFamily : Str
  fontSize : ℚ
  deriving DecidableEq, Repr

/-- A line of words (`Line` in `@/types`); the random string id is omitted and
`alignment` is the constant `'left'` at every construction site. -/
structure Line where
  words : List Word
  bbox : BoundingBox
  readingOrder : ℕ
  deriving DecidableEq, Repr

/-- Block type enumeration (`Block['type']` in `@/types`). -/
inductive BlockType where
  | paragraph | heading | list | table | footer | image
  deriving DecidableEq, Repr

/-- A block of lines (`Block` in `@/types`); the random string id is omitted. -/
structure Block where
  type : BlockType
  bbox : BoundingBox
  lines : List Line
  confidence : ℚ
  semanticRole : Option Str
  readingOrder : ℕ
  deriving DecidableEq, Repr

/-- Legacy chunk geometry in percentage units (`geometry` of
`LegacyTextChunk`). -/
structure Geometry where
  x : ℚ
  y : ℚ
  w : ℚ
  h : ℚ
  deriving DecidableEq, Repr

/-- A flattened backward-compatible chunk (`LegacyTextChunk` in `@/types`);
the `nanoid()` id is omitted. -/
structure LegacyTextChunk where
  text : Str
  pageNumber : ℕ
  geometry : Geometry
  deriving DecidableEq, Repr

/-- The comparator passed to `Array.prototype.sort` in `groupWordsIntoLines`
(part_000:933-939): if the vertical difference is below `0.01` compare by
`x`, otherwise compare by `y`. -/
def jsCmp (a b : Word) : ℚ :=
  let yDiff := a.bbox.y - b.bbox.y
  if |yDiff| < (0.01 : ℚ) then a.bbox.x - b.bbox.x else yDiff

/-- The weak order induced by `jsCmp` used to run the stable sort: `a` may be
placed before `b` iff the comparator does not order `b` strictly first. -/
def wordLe (a b : Word) : Prop := jsCmp a b ≤ 0

instance : DecidableRel wordLe := fun a b => by
  unfold wordLe; infer_instance

/-- The scan loop shared by `groupWordsIntoLines` (part_000:941-961) and
`groupLinesIntoBlocks` (part_000:968-991): `cur` is the current group
(always nonempty), `acc` the finished groups; each next element is compared
against the last element of the current group with `joinNext` and either
appended to it or starts a fresh group. -/
def chunkLoop (joinNext : α → α → Bool) : List α → List α → List (List α) → List (List α)
  | [], cur, acc => acc ++ [cur]
  | w :: t, cur, acc =>
    if joinNext (cur.getLastD w) w then chunkLoop joinNext t (cur ++ [w]) acc
    else chunkLoop joinNext t [w] (acc ++ [cur])

/-- Specification-shaped equivalent of the scan loop: split a list into
maximal runs, starting a new run exactly when `joinNext prev next` is false
for the adjacent pair.  Used to state what the imperative loop computes. -/
def splitRuns (joinNext : α → α → Bool) : List α → List (List α)
  | [] => []
  | [a] => [[a]]
  | a :: b :: t =>
    match splitRuns joinNext (b :: t) with
    | g :: gs => if joinNext a b then (a :: g) :: gs else [a] :: g :: gs
    | [] => [[a]]

/-- The join condition of `groupWordsIntoLines` (part_000:949): the incoming
word joins the current line iff its `bbox.y` differs from the `bbox.y` of the
line's last word by less than `0.02`. -/
def closeWords (lastW w : Word) : Bool :=
  decide (|w.bbox.y - lastW.bbox.y| < (0.02 : ℚ))

/-- Translation of `groupWordsIntoLines` (part_000:929-962): stable-sort by
the comparator, then scan left to right growing the current line. -/
def groupWordsIntoLines (words : List Word) : List (List Word) :=
  match List.insertionSort wordLe words with
  | [] => []
  | a :: rest => chunkLoop closeWords rest [a] []

/-- The join condition of `groupLinesIntoBlocks` (part_000:976-983): the next
line joins the current block unless the vertical gap from the bottom edge of
the block's last line to the next line's top edge exceeds `0.03`. -/
def linesJoin (lastL cur : Line) : Bool :=
  !(decide (cur.bbox.y - (lastL.bbox.y + lastL.bbox.height) > (0.03 : ℚ)))

/-- Translation of `groupLinesIntoBlocks` (part_000:965-992): no sorting, a
single scan over the lines in their given order. -/
def groupLinesIntoBlocks (lines : List Line) : List (List Line) :=
  match lines with
  | [] => []
  | a :: rest => chunkLoop linesJoin rest [a] []

/-- Translation of `calculateBoundingBox` (part_000:995-1011): the empty list
yields the zero box, otherwise componentwise min/max over the list (the
spreads `Math.min(...)` / `Math.max(...)` become folds). -/
def calculateBoundingBox (bboxes : List BoundingBox) : BoundingBox :=
  match bboxes with
  | [] => ⟨0, 0, 0, 0⟩
  | b :: bs =>
    let minX := (bs.map (fun v => v.x)).foldl min b.x
    let minY := (bs.map (fun v => v.y)).foldl min b.y
    let maxX := (bs.map (fun v => v.x + v.width)).foldl max (b.x + b.width)
    let maxY := (bs.map (fun v => v.y + v.height)).foldl max (b.y + b.height)
    ⟨minX, minY, maxX - minX, maxY - minY⟩

/-- One axis-aligned box contains another. -/
def covers (c b : BoundingBox) : Prop :=
  c.x ≤ b.x ∧ c.y ≤ b.y ∧
    b.x + b.width ≤ c.x + c.width ∧ b.y + b.height ≤ c.y + c.height

/-- Model of the JavaScript `v || d` default idiom on numbers appearing in
the source (`line.confidence || 80` etc.): `0` (and the absent/`undefined`
case, which we also encode as `0`) is falsy and replaced by the default. -/
def jsOrQ (v d : ℚ) : ℚ := if v = 0 then d else v

/-- Tesseract page-segmentation modes used by the component. -/
inductive PSM where
  | SINGLE_BLOCK | AUTO_OSD
  deriving DecidableEq, Repr

/-- An OCR invocation configuration.  The character whitelist and
`preserve_interword_spaces` parameters are identical string constants at
every call site and are not modelled; the calls differ in the segmentation
mode and in whether `user_defined_dpi: '300'` (and `tessedit_write_images`)
are set, which only the primary path does. -/
structure OcrConfig where
  psm : PSM
  userDefinedDpi300 : Bool
  deriving DecidableEq, Repr

/-- The ordered configuration ladder of the primary path (part_000:99-115):
`SINGLE_UNIFORM_BLOCK`, `AUTO_OSD`, `SINGLE_BLOCK` — the first and third
entry carry the same segmentation mode. -/
def ocrConfigs : List OcrConfig :=
  [⟨.SINGLE_BLOCK, true⟩, ⟨.AUTO_OSD, true⟩, ⟨.SINGLE_BLOCK, true⟩]

/-- The single fixed configuration of the catch-block fallback
(part_000:601-605): `SINGLE_BLOCK`, without the DPI hint. -/
def fallbackOcrConfig : OcrConfig := ⟨.SINGLE_BLOCK, false⟩

/-- A word as reported by the OCR engine (`data.words[i]`). -/
structure OcrBBox where
  x0 : ℚ
  y0 : ℚ
  x1 : ℚ
  y1 : ℚ
  deriving DecidableEq, Repr

/-- An OCR-recognized word; `bbox` is `none` when the engine reports no box. -/
structure OcrWord where
  text : Str
  bbox : Option OcrBBox
  confidence : ℚ
  deriving DecidableEq, Repr

/-- An OCR-recognized line; a missing/zero engine confidence is modelled as
`0` (JS falsy), matching the `line.confidence || d` default idiom. -/
structure OcrLine where
  text : Str
  bbox : Option OcrBBox
  confidence : ℚ
  deriving DecidableEq, Repr

/-- The OCR result object (`data` from `worker.recognize`). -/
structure OcrData where
  words : Option (List OcrWord)
  lines : Option (List OcrLine)
  text : Str
  deriving DecidableEq, Repr

/-- A native text-layer item from `page.getTextContent()` (part_000:167-175):
a string, a 2×3 transform matrix (the code reads entries `[0]`, `[4]`,
`[5]`), measured width/height (`0` models the JS-falsy absent value) and a
font name (`[]` models the JS-falsy absent value). -/
structure PdfItem where
  str : Str
  m0 : ℚ
  m1 : ℚ
  m2 : ℚ
  m3 : ℚ
  m4 : ℚ
  m5 : ℚ
  width : ℚ
  height : ℚ
  fontName : Str
  deriving DecidableEq, Repr

/-- Result of `extractTextWithGemini`. -/
structure GeminiResult where
  text : Str
  confidence : ℚ
  deriving DecidableEq, Repr

/-- A structural element from `analyzeDocumentStructure`. -/
structure StructureElement where
  type : Str
  content : Str
  confidence : ℚ
  deriving DecidableEq, Repr

/-- Result of `analyzeDocumentStructure`. -/
structure StructureResult where
  layout : Str
  elements : List StructureElement
  completeText : Str
  deriving DecidableEq, Repr

/-- Coverage diagnostics of the intermediate page (the optional
`missedWords` array, always empty or absent in this component, is omitted). -/
structure Coverage where
  pdfNativeWords : ℕ
  ocrWords : ℕ
  reconciledWords : ℕ
  coveragePercent : ℚ
  deriving DecidableEq, Repr

/-- The intermediate representation page (`Page` in `@/types`); the
`semanticRegions` optional field is only populated by the non-advanced
`performEnhancedOCR` path, which is not needed by the claims. -/
structure IRPage where
  pageNumber : ℕ
  width : ℚ
  height : ℚ
  words : List Word
  lines : List Line
  blocks : List Block
  coverage : Coverage
  deriving DecidableEq, Repr

/-- The pair returned by `performGeminiExtraction`. -/
structure PageResult where
  legacyChunks : List LegacyTextChunk
  irPage : IRPage
  deriving DecidableEq, Repr

/-- All page-level inputs of one `performGeminiExtraction` call.  The two
remote vision calls (`extractTextWithGemini`, `analyzeDocumentStructure`) are
a single oracle that either yields both results or throws; the OCR engine is
an oracle from a configuration to a result or a thrown error. -/
structure PageInputs where
  canvasWidth : ℚ
  canvasHeight : ℚ
  pageNumber : ℕ
  pdfItems : List PdfItem
  vision : Except Unit (GeminiResult × StructureResult)
  recognize : OcrConfig → Except Unit OcrData

/-- The configuration ladder of part_000:117-141: try each configuration in
order, swallow per-configuration errors, and accept the first result whose
`words` is a nonempty array. -/
def tryOcrConfigsAux (recognize : OcrConfig → Except Unit OcrData) :
    List OcrConfig → Option OcrData
  | [] => none
  | c :: cs =>
    match recognize c with
    | .error _ => tryOcrConfigsAux recognize cs
    | .ok d =>
      match d.words with
      | some (_ :: _) => some d
      | _ => tryOcrConfigsAux recognize cs

/-- First-success OCR over the primary configuration ladder. -/
def tryOcrConfigs (recognize : OcrConfig → Except Unit OcrData) : Option OcrData :=
  tryOcrConfigsAux recognize ocrConfigs

/-- Translation of `mapElementTypeToBlockType` (part_000:787-803). -/
def mapElementTypeToBlockType (elementType : Str) : BlockType :=
  let t := jsToLower elementType
  if t = "title".toList ∨ t = "header".toList then .heading
  else if t = "table".toList then .table
  else if t = "list".toList then .list
  else if t = "footer".toList then .footer
  else if t = "image".toList then .image
  else .paragraph

/-- Words and chunks built from primary OCR coordinates (part_000:214-253):
clamped normalized box, confidence divided by 100, chunk geometry as the
normalized box times 100. -/
def ocrWordsBuild (cw chh : ℚ) (pn : ℕ) (ws : List OcrWord) :
    List Word × List LegacyTextChunk :=
  let pairs := ws.filterMap (fun ow =>
    match ow.bbox with
    | some bb =>
      if (jsTrim ow.text).isEmpty then none
      else
        let nb : BoundingBox :=
          ⟨max 0 (min (bb.x0 / cw) 1),
           max 0 (min (bb.y0 / chh) 1),
           max 0.001 (min ((bb.x1 - bb.x0) / cw) (1 - bb.x0 / cw)),
           max 0.001 (min ((bb.y1 - bb.y0) / chh) (1 - bb.y0 / chh))⟩
        some (({ text := ow.text, bbox := nb, confidence := ow.confidence / 100,
                 fontFamily := "Arial".toList, fontSize := 12 } : Word),
              ({ text := ow.text, pageNumber := pn,
                 geometry := ⟨nb.x * 100, nb.y * 100, nb.width * 100, nb.height * 100⟩ } :
                LegacyTextChunk))
    | none => none)
  (pairs.map Prod.fst, pairs.map Prod.snd)

/-- STEP 3 of the primary path (part_000:162-253).  Priority 1 (native text
layer): if any item has non-empty trimmed text, building its legacy chunk
dereferences the unbound identifiers `w` and `h` (part_000:203-204), which
throws a `ReferenceError`; with only empty items the branch builds nothing.
Priority 2 (OCR words) is only reached when there are no native items. -/
def primaryWords (cw chh : ℚ) (pn : ℕ) (items : List PdfItem)
    (ocrData : Option OcrData) : Except Unit (List Word × List LegacyTextChunk) :=
  if 0 < items.length then
    if items.any (fun it => !(jsTrim it.str).isEmpty) then .error () else .ok ([], [])
  else
    match ocrData with
    | some d =>
      match d.words with
      | some ws => .ok (ocrWordsBuild cw chh pn ws)
      | none => .ok ([], [])
    | none => .ok ([], [])

/-- One OCR line of fallback Strategy 1 (part_000:264-313): words positioned
proportionally to character counts inside the line box, with 1% spacing. -/
def lineFallbackLine (cw chh : ℚ) (pn : ℕ) (l : OcrLine) (bb : OcrBBox) :
    List Word × List LegacyTextChunk :=
  let lineWords := (jsSplitWs l.text).filter (fun w => !(jsTrim w).isEmpty)
  let lineWidth := bb.x1 - bb.x0
  let lineHeight := bb.y1 - bb.y0
  let st := lineWords.foldl (fun st wordText =>
    let (curX, ws, cs) := st
    let avgCharWidth := lineWidth / (l.text.length : ℚ)
    let wordWidth := max ((wordText.length : ℚ) * avgCharWidth) (lineWidth * 0.03)
    let spacing := lineWidth * 0.01
    let nb : BoundingBox := ⟨curX / cw, bb.y0 / chh, wordWidth / cw, lineHeight / chh⟩
    let w : Word := { text := wordText, bbox := nb,
                      confidence := jsOrQ l.confidence 80 / 100,
                      fontFamily := "Arial".toList, fontSize := max 8 (lineHeight * 0.8) }
    let c : LegacyTextChunk :=
      { text := wordText, pageNumber := pn,
        geometry := ⟨max 0 (min (curX / cw * 100) 100),
                     max 0 (min (bb.y0 / chh * 100) 100),
                     max 0.5 (min (wordWidth / cw * 100) 100),
                     max 1.0 (min (lineHeight / chh * 100) 100)⟩ }
    (curX + wordWidth + spacing, ws ++ [w], cs ++ [c]))
    (bb.x0, ([] : List Word), ([] : List LegacyTextChunk))
  (st.2.1, st.2.2)

/-- Fallback Strategy 1 over all OCR lines (part_000:262-314). -/
def lineFallback (cw chh : ℚ) (pn : ℕ) (ocrLines : List OcrLine) :
    List Word × List LegacyTextChunk :=
  ocrLines.foldl (fun acc l =>
    match l.bbox with
    | some bb =>
      if (jsTrim l.text).isEmpty then acc
      else
        let p := lineFallbackLine cw chh pn l bb
        (acc.1 ++ p.1, acc.2 ++ p.2)
    | none => acc) ([], [])

/-- Fallback Strategy 2 (part_000:316-383): simulate an idealized document
flow over the vision-model text with fixed margins, words-per-line, line
height, and estimated word widths. -/
def flowFallback (pn : ℕ) (gem : GeminiResult) : List Word × List LegacyTextChunk :=
  let textWords := (jsSplitWs gem.text).filter (fun w => !(jsTrim w).isEmpty)
  let left := (0.06 : ℚ)
  let right := (0.06 : ℚ)
  let top := (0.08 : ℚ)
  let bottom := (0.08 : ℚ)
  let contentWidth := 1 - left - right
  let avgWordsPerLine : ℕ := 12
  let lineHeight := (0.025 : ℚ)
  let wordSpacing := (0.008 : ℚ)
  let st := textWords.enum.foldl (fun st p =>
    let (curX0, curY0, ws, cs) := st
    let i := p.1
    let wordText := p.2
    let avgCharWidth := contentWidth / ((avgWordsPerLine : ℚ) * 7)
    let wordWidth := max ((wordText.length : ℚ) * avgCharWidth) (contentWidth * 0.02)
    let wrap := decide (curX0 + wordWidth > 1 - right)
      || (decide (0 < i) && decide (i % avgWordsPerLine = 0))
    let curX1 := if wrap then left else curX0
    let curY1 := if wrap then curY0 + lineHeight * 1.2 else curY0
    let overflow := decide (curY1 + lineHeight > 1 - bottom)
    let curY2 := if overflow then top else curY1
    let curX2 := if overflow then curX1 + contentWidth * 0.5 else curX1
    let nb : BoundingBox := ⟨curX2, curY2, wordWidth, lineHeight⟩
    let w : Word := { text := wordText, bbox := nb, confidence := gem.confidence,
                      fontFamily := "Arial".toList, fontSize := 12 }
    let c : LegacyTextChunk :=
      { text := wordText, pageNumber := pn,
        geometry := ⟨max 0 (min (curX2 * 100) 100),
                     max 0 (min (curY2 * 100) 100),
                     max 0.5 (min (wordWidth * 100) 100),
                     max 1.0 (min (lineHeight * 100) 100)⟩ }
    (curX2 + wordWidth + wordSpacing, curY2, ws ++ [w], cs ++ [c]))
    (left, top, ([] : List Word), ([] : List LegacyTextChunk))
  (st.2.2.1, st.2.2.2)

/-- STEP 4 of the primary path (part_000:255-386): when no words were built,
try the OCR-line strategy, then — only when that produced no passing line
and the vision text is nonempty — the document-flow strategy. -/
def fallbackStep (cw chh : ℚ) (pn : ℕ) (ocrData : Option OcrData)
    (gem : GeminiResult) (words : List Word) (chunks : List LegacyTextChunk) :
    List Word × List LegacyTextChunk :=
  if words.isEmpty then
    let ocrLines :=
      match ocrData with
      | some d =>
        match d.lines with
        | some (l :: ls) => l :: ls
        | _ => []
      | none => []
    let created := ocrLines.any (fun l => !(jsTrim l.text).isEmpty && l.bbox.isSome)
    let p := lineFallback cw chh pn ocrLines
    let words1 := words ++ p.1
    let chunks1 := chunks ++ p.2
    if !created && !gem.text.isEmpty then
      let q := flowFallback pn gem
      (words1 ++ q.1, chunks1 ++ q.2)
    else (words1, chunks1)
  else (words, chunks)

/-- The sentinel chunk pushed when every extraction method produced nothing
(part_000:392-403). -/
def placeholderChunk (pn : ℕ) : LegacyTextChunk :=
  { text := "No text detected".toList, pageNumber := pn, geometry := ⟨10, 10, 20, 5⟩ }

/-- Line records from the word groups (part_000:416-429): one `Line` per
nonempty group, `readingOrder` the group index, box the union of the words'
boxes. -/
def buildLines (groups : List (List Word)) : List Line :=
  groups.enum.filterMap (fun p =>
    if p.2.isEmpty then none
    else some { words := p.2,
                bbox := calculateBoundingBox (p.2.map (fun w => w.bbox)),
                readingOrder := p.1 })

/-- The value stored in the semantic lookup map (part_000:440-444). -/
structure SemanticInfo where
  type : Str
  confidence : ℚ
  role : Str
  deriving DecidableEq, Repr

/-- Model of `Map.prototype.set`: replace the value of an existing key in
place (keeping its insertion position), else append. -/
def mapSet (m : List (Str × SemanticInfo)) (k : Str) (v : SemanticInfo) :
    List (Str × SemanticInfo) :=
  if m.any (fun p => p.1 = k) then m.map (fun p => if p.1 = k then (k, v) else p)
  else m ++ [(k, v)]

/-- The semantic lookup built from the structural elements
(part_000:435-446): keyed by lower-cased trimmed content, in insertion
order. -/
def buildSemanticMap (elements : List StructureElement) : List (Str × SemanticInfo) :=
  elements.foldl (fun m e =>
    if (jsTrim e.content).isEmpty then m
    else mapSet m (jsTrim (jsToLower e.content)) ⟨e.type, e.confidence, e.type⟩) []

/-- First-substring-match semantic lookup for a block's text
(part_000:458-471): returns `(type, confidence, role)`. -/
def findSemanticInfo (m : List (Str × SemanticInfo)) (blockText : Str) :
    Str × ℚ × Option Str :=
  match m.find? (fun p => jsIncludes blockText p.1 || jsIncludes p.1 blockText) with
  | some p => (p.2.type, max p.2.confidence 0.7, some p.2.role)
  | none => ("paragraph".toList, 0.8, none)

/-- Block records from the line groups with semantic labels
(part_000:448-484). -/
def buildBlocks (m : List (Str × SemanticInfo)) (groups : List (List Line)) : List Block :=
  groups.enum.filterMap (fun p =>
    if p.2.isEmpty then none
    else
      let blockText := jsTrim (jsToLower (joinNl (p.2.map (fun l =>
        joinSpace (l.words.map (fun w => w.text))))))
      let info := findSemanticInfo m blockText
      some { type := mapElementTypeToBlockType info.1,
             bbox := calculateBoundingBox (p.2.map (fun l => l.bbox)),
             lines := p.2,
             confidence := info.2.1,
             semanticRole := info.2.2,
             readingOrder := p.1 })

/-- One iteration of the coverage-gap repair loop (part_000:500-561): append
one synthetic word set, line, block (stacked below `y = 0.8`) and one legacy
chunk per synthetic word, for one missing structural element. -/
def gapStep (pn : ℕ)
    (st : List Word × List Line × List Block × List LegacyTextChunk)
    (p : ℕ × StructureElement) :
    List Word × List Line × List Block × List LegacyTextChunk :=
  let (ws, ls, bs, cs) := st
  let i : ℕ := p.1
  let e := p.2
  let fb : BoundingBox := ⟨0.1, 0.8 + (i : ℚ) * 0.05, 0.8, 0.04⟩
  let fallbackWords := (jsSplitWs e.content).enum.map (fun q =>
    ({ text := q.2,
       bbox := ⟨fb.x + (q.1 : ℚ) * 0.05, fb.y,
                min 0.05 ((q.2.length : ℚ) * 0.01), fb.height⟩,
       confidence := e.confidence, fontFamily := "Arial".toList,
       fontSize := 12 } : Word))
  let fLine : Line := { words := fallbackWords, bbox := fb, readingOrder := ls.length + i }
  let fBlock : Block :=
    { type := mapElementTypeToBlockType e.type, bbox := fb, lines := [fLine],
      confidence := e.confidence, semanticRole := some e.type,
      readingOrder := bs.length + i }
  let fChunks := fallbackWords.map (fun w =>
    ({ text := w.text, pageNumber := pn,
       geometry := ⟨max 0 (min (w.bbox.x * 100) 100),
                    max 0 (min (w.bbox.y * 100) 100),
                    max 0.5 (min (w.bbox.width * 100) 100),
                    max 1.0 (min (w.bbox.height * 100) 100)⟩ } : LegacyTextChunk))
  (ws ++ fallbackWords, ls ++ [fLine], bs ++ [fBlock], cs ++ fChunks)

/-- STEP 5, the coverage-gap repair (part_000:486-562): when the complete
vision text is more than 20% longer than the concatenated recognized text,
run `gapStep` over every structural element whose lower-cased trimmed
content is nonempty and not a substring of the lower-cased recognized
text. -/
def ensureAllTextCaptured (pn : ℕ) (elements : List StructureElement)
    (completeText : Str) (words : List Word) (lines : List Line)
    (blocks : List Block) (chunks : List LegacyTextChunk) :
    List Word × List Line × List Block × List LegacyTextChunk :=
  let extractedText := joinSpace (words.map (fun w => w.text))
  if (completeText.length : ℚ) > (extractedText.length : ℚ) * 1.2 then
    let missing := elements.filter (fun e =>
      let et := jsTrim (jsToLower e.content)
      !et.isEmpty && !jsIncludes (jsToLower extractedText) et)
    missing.enum.foldl (gapStep pn) (words, lines, blocks, chunks)
  else (words, lines, blocks, chunks)

/-- The try-block body of `performGeminiExtraction` (part_000:68-581), after
the vision calls succeeded: word selection, fallbacks, placeholder,
grouping, semantic labelling, gap repair, and assembly of the result.  An
`error` models the `ReferenceError` thrown on the native path. -/
def mainExtraction (inp : PageInputs) (gem : GeminiResult) (struc : StructureResult) :
    Except Unit PageResult :=
  let cw := inp.canvasWidth
  let chh := inp.canvasHeight
  let pn := inp.pageNumber
  let ocrData := tryOcrConfigs inp.recognize
  match primaryWords cw chh pn inp.pdfItems ocrData with
  | .error e => .error e
  | .ok pr =>
    let p1 := fallbackStep cw chh pn ocrData gem pr.1 pr.2
    let chunks2 := if p1.1.isEmpty then p1.2 ++ [placeholderChunk pn] else p1.2
    let lns := buildLines (groupWordsIntoLines p1.1)
    let semMap := buildSemanticMap struc.elements
    let blks := buildBlocks semMap (groupLinesIntoBlocks lns)
    let completeText := if struc.completeText.isEmpty then gem.text else struc.completeText
    let fin := ensureAllTextCaptured pn struc.elements completeText p1.1 lns blks chunks2
    .ok { legacyChunks := fin.2.2.2,
          irPage := { pageNumber := pn, width := cw, height := chh,
                      words := fin.1, lines := fin.2.1, blocks := fin.2.2.1,
                      coverage := { pdfNativeWords := 0,
                                    ocrWords :=
                                      match ocrData with
                                      | some d => (d.words.getD []).length
                                      | none => 0,
                                    reconciledWords := fin.1.length,
                                    coveragePercent := min 95 (gem.confidence * 100) } } }

/-- Exact integer ceiling of `Math.sqrt` (part_000:704); exact because
`Math.sqrt` is correctly rounded and word counts are far below 2^52. -/
def jsCeilSqrt (n : ℕ) : ℕ :=
  if Nat.sqrt n * Nat.sqrt n = n then Nat.sqrt n else Nat.sqrt n + 1

/-- One OCR line of the catch-block emergency fallback (part_000:659-697):
the line box is split evenly among its whitespace tokens; chunk geometry is
emitted in raw raster pixels. -/
def emergencyLineWords (cw chh : ℚ) (pn : ℕ) (ocrLines : List OcrLine) :
    List Word × List LegacyTextChunk :=
  ocrLines.foldl (fun acc l =>
    match l.bbox with
    | some bb =>
      if (jsTrim l.text).isEmpty then acc
      else
        let lineWords := (jsSplitWs l.text).filter (fun w => !(jsTrim w).isEmpty)
        let wordWidth := (bb.x1 - bb.x0) / (lineWords.length : ℚ)
        let pairs := lineWords.enum.map (fun q =>
          let wordX := bb.x0 + (q.1 : ℚ) * wordWidth
          (({ text := q.2,
              bbox := ⟨wordX / cw, bb.y0 / chh, wordWidth / cw, (bb.y1 - bb.y0) / chh⟩,
              confidence := jsOrQ l.confidence 70 / 100,
              fontFamily := "Arial".toList, fontSize := 12 } : Word),
           ({ text := q.2, pageNumber := pn,
              geometry := ⟨wordX, bb.y0, wordWidth, bb.y1 - bb.y0⟩ } : LegacyTextChunk)))
        (acc.1 ++ pairs.map Prod.fst, acc.2 ++ pairs.map Prod.snd)
    | none => acc) ([], [])

/-- The catch-block fallback of `performGeminiExtraction` (part_000:583-778):
one OCR run under the single fixed configuration; words from OCR boxes
(unclamped, chunk geometry in raw pixels), else the emergency line strategy,
else a synthetic grid from the OCR text; grouping into lines and exactly one
block with the constant confidence `0.8`. -/
def tesseractFallback (cw chh : ℚ) (pn : ℕ) (data : OcrData) : PageResult :=
  let wpairs := (data.words.getD []).filterMap (fun ow =>
    match ow.bbox with
    | some bb =>
      if (jsTrim ow.text).isEmpty then none
      else
        some (({ text := ow.text,
                 bbox := ⟨bb.x0 / cw, bb.y0 / chh, (bb.x1 - bb.x0) / cw, (bb.y1 - bb.y0) / chh⟩,
                 confidence := ow.confidence / 100,
                 fontFamily := "Arial".toList, fontSize := 12 } : Word),
              ({ text := ow.text, pageNumber := pn,
                 geometry := ⟨bb.x0, bb.y0, bb.x1 - bb.x0, bb.y1 - bb.y0⟩ } : LegacyTextChunk))
    | none => none)
  let words0 := wpairs.map Prod.fst
  let chunks0 := wpairs.map Prod.snd
  let p1 :=
    if words0.isEmpty then
      match data.lines with
      | some (l :: ls) =>
        let p := emergencyLineWords cw chh pn (l :: ls)
        (words0 ++ p.1, chunks0 ++ p.2)
      | _ => (words0, chunks0)
    else (words0, chunks0)
  let p2 :=
    if p1.1.isEmpty && !data.text.isEmpty then
      let textWords := (jsSplitWs data.text).filter (fun w => !(jsTrim w).isEmpty)
      let gridCols := min 12 (jsCeilSqrt textWords.length)
      let gridRows := (textWords.length + gridCols - 1) / gridCols
      let pairs := textWords.enum.map (fun q =>
        let row := q.1 / gridCols
        let col := q.1 % gridCols
        let x := (0.05 : ℚ) + (col : ℚ) * 0.08
        let y := (0.1 : ℚ) + (row : ℚ) * 0.7 / (gridRows : ℚ)
        let width := (0.07 : ℚ)
        let height := (0.03 : ℚ)
        (({ text := q.2, bbox := ⟨x, y, width, height⟩, confidence := 0.6,
            fontFamily := "Arial".toList, fontSize := 12 } : Word),
         ({ text := q.2, pageNumber := pn,
            geometry := ⟨x * cw, y * chh, width * cw, height * chh⟩ } : LegacyTextChunk)))
      (p1.1 ++ pairs.map Prod.fst, p1.2 ++ pairs.map Prod.snd)
    else p1
  let lns := (groupWordsIntoLines p2.1).enum.map (fun p =>
    ({ words := p.2, bbox := calculateBoundingBox (p.2.map (fun w => w.bbox)),
       readingOrder := p.1 } : Line))
  let blks : List Block :=
    [{ type := .paragraph, bbox := calculateBoundingBox (p2.1.map (fun w => w.bbox)),
       lines := lns, confidence := 0.8, semanticRole := none, readingOrder := 0 }]
  { legacyChunks := p2.2,
    irPage := { pageNumber := pn, width := cw, height := chh,
                words := p2.1, lines := lns, blocks := blks,
                coverage := { pdfNativeWords := 0, ocrWords := p2.1.length,
                              reconciledWords := p2.1.length, coveragePercent := 80 } } }

/-- Translation of `performGeminiExtraction` (part_000:64-784): run the
vision oracle and the try-block body; any thrown error (vision failure or
the native-path `ReferenceError`) lands in the catch block, which runs the
OCR fallback under the single fixed configuration.  An error of the
fallback's own OCR call propagates. -/
def performGeminiExtraction (inp : PageInputs) : Except Unit PageResult :=
  let runCatch : Except Unit PageResult :=
    match inp.recognize fallbackOcrConfig with
    | .error e => .error e
    | .ok d => .ok (tesseractFallback inp.canvasWidth inp.canvasHeight inp.pageNumber d)
  match inp.vision with
  | .error _ => runCatch
  | .ok gs =>
    match mainExtraction inp gs.1 gs.2 with
    | .ok r => .ok r
    | .error _ => runCatch

/-- The spec's block-confidence formula (§4.3 "mean of per-line
mean-word-confidence"), stated from the spec's words for comparison with the
code's catch-path constant. -/
def specMeanOfLineMeans (b : Block) : ℚ :=
  ((b.lines.map (fun l => (l.words.map (fun w => w.confidence)).sum / (l.words.length : ℚ))).sum) /
    (b.lines.length : ℚ)

/-- Progress milestones of one page (part_000:1167-1224): six updates at
`base + k·step` for `k = 1..6`, where `base = ((p-1)/N)·80 + 10` and
`step = 80/N/6`. -/
def pageProgressValues (numPages pageNum : ℕ) : List ℚ :=
  (List.range 6).map (fun k : ℕ =>
    ((pageNum : ℚ) - 1) / (numPages : ℚ) * 80 + 10 +
      ((k : ℚ) + 1) * (80 / (numPages : ℚ) / 6))

/-- The full sequence of values passed to `onProgressUpdate` over a
successful run: `10` on document load (part_000:55), the six milestones of
each page processed sequentially, and `100` after the last page's completion
callback has assembled the final result (part_000:1265). -/
def progressSeq (numPages : ℕ) : List ℚ :=
  10 :: (((List.range numPages).flatMap (fun i => pageProgressValues numPages (i + 1))) ++ [100])

/-- Concrete OCR oracle result for exhibiting the native-path failure (one
recognized word at pixel box (500,400)-(600,420) with engine confidence
50). -/
def nativeBugOcrData : OcrData :=
  { words := some [{ text := "ocr".toList, bbox := some ⟨500, 400, 600, 420⟩,
                     confidence := 50 }],
    lines := none, text := "ocr".toList }

/-- Concrete page inputs with one non-empty native text-layer item and a
succeeding vision call. -/
def nativeBugInputs : PageInputs :=
  { canvasWidth := 1000, canvasHeight := 800, pageNumber := 1,
    pdfItems := [{ str := "Hello".toList, m0 := 12, m1 := 0, m2 := 0, m3 := 12,
                   m4 := 100, m5 := 700, width := 60, height := 12,
                   fontName := "F1".toList }],
    vision := .ok ({ text := "Hello".toList, confidence := 9/10 },
                   { layout := [], elements := [], completeText := [] }),
    recognize := fun _ => .ok nativeBugOcrData }

/-- Concrete OCR oracle result for the vision-failure fallback study. -/
def visionFailOcrData : OcrData :=
  { words := some [{ text := "ocr".toList, bbox := some ⟨500, 400, 600, 420⟩,
                     confidence := 50 }],
    lines := none, text := "ocr".toList }

/-- Concrete page inputs whose vision call throws. -/
def visionFailInputs : PageInputs :=
  { canvasWidth := 1000, canvasHeight := 800, pageNumber := 2, pdfItems := [],
    vision := .error (), recognize := fun _ => .ok visionFailOcrData }

/-- Concrete OCR oracle result used to exhibit pixel-unit chunk geometry. -/
def pixelOcrData : OcrData :=
  { words := some [{ text := "px".toList, bbox := some ⟨500, 400, 600, 420⟩,
                     confidence := 90 }],
    lines := none, text := "px".toList }

/-- Concrete page inputs (vision failing) on a 1000×800 raster. -/
def pixelInputs : PageInputs :=
  { canvasWidth := 1000, canvasHeight := 800, pageNumber := 4, pdfItems := [],
    vision := .error (), recognize := fun _ => .ok pixelOcrData }

/-- Concrete page inputs on which every source yields nothing. -/
def emptyInputs : PageInputs :=
  { canvasWidth := 1000, canvasHeight := 800, pageNumber := 3, pdfItems := [],
    vision := .ok ({ text := [], confidence := 9/10 },
                   { layout := [], elements := [], completeText := [] }),
    recognize := fun _ => .error () }

lemma splitRuns_cons_shape (p : α → α → Bool) (a : α) (t : List α) :
    ∃ f gs, splitRuns p (a :: t) = (a :: f) :: gs := by
  cases t with
  | nil => exact ⟨[], [], rfl⟩
  | cons b t =>
    rw [splitRuns]
    cases h : splitRuns p (b :: t) with
    | nil => exact ⟨[], [], rfl⟩
    | cons g gs =>
      by_cases hp : p a b = true
      · exact ⟨g, gs, by simp [hp]⟩
      · exact ⟨[], g :: gs, by simp [hp]⟩

lemma chunkLoop_eq_splitRuns (p : α → α → Bool) :
    ∀ (t cur : List α) (acc : List (List α)) (lw : α) (f : List α) (gs : List (List α)),
      cur.getLast? = some lw → splitRuns p (lw :: t) = (lw :: f) :: gs →
      chunkLoop p t cur acc = acc ++ (cur ++ f) :: gs := by
  intro t
  induction t with
  | nil =>
    intro cur acc lw f gs hlast hsplit
    have hone : splitRuns p [lw] = [[lw]] := rfl
    rw [hone] at hsplit
    injection hsplit with ha hb
    injection ha with hc hf
    subst hb; subst hf
    simp [chunkLoop]
  | cons w t ih =>
    intro cur acc lw f gs hlast hsplit
    have hcur : cur ≠ [] := by
      intro hc; rw [hc] at hlast; simp at hlast
    have hlastD : cur.getLastD w = lw := by
      rw [List.getLastD_eq_getLast?, hlast]; rfl
    obtain ⟨f', gs', hshape⟩ := splitRuns_cons_shape p w t
    rw [splitRuns, hshape] at hsplit
    by_cases hp : p lw w = true
    · simp only [hp, if_true] at hsplit
      obtain ⟨h1, h2⟩ := (List.cons.injEq _ _ _ _).mp hsplit
      obtain ⟨-, h3⟩ := (List.cons.injEq _ _ _ _).mp h1
      rw [chunkLoop, hlastD, if_pos hp]
      have := ih (cur ++ [w]) acc w f' gs' (List.getLast?_concat cur) hshape
      rw [this, h2.symm, ← h3]
      simp
    · simp only [hp, if_false] at hsplit
      obtain ⟨h1, h2⟩ := (List.cons.injEq _ _ _ _).mp hsplit
      obtain ⟨-, h3⟩ := (List.cons.injEq _ _ _ _).mp h1
      rw [chunkLoop, hlastD, if_neg hp]
      have := ih [w] (acc ++ [cur]) w f' gs' rfl hshape
      rw [this, ← h2, ← h3]
      simp

lemma splitRuns_flatten (p : α → α → Bool) : ∀ l : List α, (splitRuns p l).flatten = l := by
  intro l
  induction l using splitRuns.induct p with
  | case1 => rfl
  | case2 a => rfl
  | case3 a b t g gs hm hp ih =>
    rw [splitRuns, hm]
    rw [hm] at ih
    simp only [hp, if_true]
    simp only [List.flatten_cons] at ih ⊢
    simp [← ih]
  | case4 a b t g gs hm hp ih =>
    rw [splitRuns, hm]
    rw [hm] at ih
    simp only [hp, if_false]
    simp only [List.flatten_cons] at ih ⊢
    simp [← ih]
  | case5 a b t hm ih =>
    obtain ⟨f, gs, h⟩ := splitRuns_cons_shape p b t
    rw [hm] at h
    exact absurd h (by simp)

lemma splitRuns_ne_nil (p : α → α → Bool) :
    ∀ l : List α, ∀ g ∈ splitRuns p l, g ≠ [] := by
  intro l
  induction l using splitRuns.induct p with
  | case1 => intro g hg; simp [splitRuns] at hg
  | case2 a => intro g hg; simp [splitRuns] at hg; simp [hg]
  | case3 a b t g₀ gs₀ hm hp ih =>
    intro g hg
    rw [splitRuns, hm] at hg
    rw [hm] at ih
    simp only [hp, if_true, List.mem_cons] at hg
    rcases hg with hg | hg
    · simp [hg]
    · exact ih g (by simp [hg])
  | case4 a b t g₀ gs₀ hm hp ih =>
    intro g hg
    rw [splitRuns, hm] at hg
    rw [hm] at ih
    dsimp only at hg
    rw [if_neg hp] at hg
    simp only [List.mem_cons] at hg
    rcases hg with hg | hg | hg
    · simp [hg]
    · exact ih g (by simp [hg])
    · exact ih g (by simp [hg])
  | case5 a b t hm ih =>
    obtain ⟨f, gs, h⟩ := splitRuns_cons_shape p b t
    rw [hm] at h
    exact absurd h (by simp)

lemma splitRuns_chain (p : α → α → Bool) :
    ∀ l : List α, ∀ g ∈ splitRuns p l, g.Chain' (fun a b => p a b = true) := by
  intro l
  induction l using splitRuns.induct p with
  | case1 => intro g hg; simp [splitRuns] at hg
  | case2 a => intro g hg; simp [splitRuns] at hg; simp [hg]
  | case3 a b t g₀ gs₀ hm hp ih =>
    intro g hg
    obtain ⟨f, gs, h⟩ := splitRuns_cons_shape p b t
    rw [h] at hm
    injection hm with hm1 hm2
    rw [splitRuns, h] at hg
    rw [h] at ih
    simp only [hp, if_true, List.mem_cons] at hg
    rcases hg with hg | hg
    · subst hg
      exact (ih (b :: f) (by simp)).cons hp
    · exact ih g (by simp [hg])
  | case4 a b t g₀ gs₀ hm hp ih =>
    intro g hg
    obtain ⟨f, gs, h⟩ := splitRuns_cons_shape p b t
    rw [splitRuns, h] at hg
    rw [h] at ih
    dsimp only at hg
    rw [if_neg hp] at hg
    simp only [List.mem_cons] at hg
    rcases hg with hg | hg | hg
    · simp [hg]
    · exact ih g (by simp [hg])
    · exact ih g (by simp [hg])
  | case5 a b t hm ih =>
    obtain ⟨f, gs, h⟩ := splitRuns_cons_shape p b t
    rw [hm] at h
    exact absurd h (by simp)

lemma splitRuns_boundary (p : α → α → Bool) :
    ∀ l : List α, (splitRuns p l).Chain'
      (fun g h => ∀ a ∈ g.getLast?, ∀ b ∈ h.head?, p a b = false) := by
  intro l
  induction l using splitRuns.induct p with
  | case1 => simp [splitRuns]
  | case2 a => simp [splitRuns]
  | case3 a b t g₀ gs₀ hm hp ih =>
    obtain ⟨f, gs, h⟩ := splitRuns_cons_shape p b t
    rw [splitRuns, h]
    rw [h] at ih
    simp only [hp, if_true]
    rcases gs with - | ⟨g₂, gs2⟩
    · simp
    · refine List.Chain'.cons ?_ (List.chain'_cons.mp ih).2
      intro x hx y hy
      have hlast : (a :: b :: f).getLast? = (b :: f).getLast? := by
        simp [List.getLast?_cons_cons]
      exact (List.chain'_cons.mp ih).1 x (by rw [hlast] at hx; exact hx) y hy
  | case4 a b t g₀ gs₀ hm hp ih =>
    obtain ⟨f, gs, h⟩ := splitRuns_cons_shape p b t
    rw [splitRuns, h]
    rw [h] at ih
    dsimp only
    rw [if_neg hp]
    refine List.Chain'.cons ?_ ih
    intro x hx y hy
    simp only [List.getLast?_singleton, Option.mem_def, Option.some.injEq] at hx
    simp only [List.head?_cons, Option.mem_def, Option.some.injEq] at hy
    rw [← hx, ← hy]
    simpa using hp
  | case5 a b t hm ih =>
    obtain ⟨f, gs, h⟩ := splitRuns_cons_shape p b t
    rw [hm] at h
    exact absurd h (by simp)

lemma splitRuns_of_chain_not (p : α → α → Bool) :
    ∀ l : List α, l.Chain' (fun a b => p a b = false) →
      splitRuns p l = l.map (fun a => [a]) := by
  intro l
  induction l using splitRuns.induct p with
  | case1 => intro h₀; rfl
  | case2 a => intro h₀; rfl
  | case3 a b t g₀ gs₀ hm hp ih =>
    intro hc
    have hab : p a b = false := (List.chain'_cons.mp hc).1
    rw [hab] at hp
    exact absurd hp (by simp)
  | case4 a b t g₀ gs₀ hm hp ih =>
    intro hc
    have ht := ih ((List.chain'_cons.mp hc).2)
    rw [splitRuns, ht]
    have hab : p a b = false := (List.chain'_cons.mp hc).1
    cases t <;> simp [hab]
  | case5 a b t hm ih =>
    obtain ⟨f, gs, h⟩ := splitRuns_cons_shape p b t
    rw [hm] at h
    exact absurd h (by simp)

lemma groupWordsIntoLines_eq_splitRuns (l : List Word) :
    groupWordsIntoLines l = splitRuns closeWords (List.insertionSort wordLe l) := by
  unfold groupWordsIntoLines
  cases h : List.insertionSort wordLe l with
  | nil => rfl
  | cons a rest =>
    dsimp only
    obtain ⟨f, gs, hs⟩ := splitRuns_cons_shape closeWords a rest
    rw [chunkLoop_eq_splitRuns closeWords rest [a] [] a f gs rfl hs, hs]
    simp

lemma groupLinesIntoBlocks_eq_splitRuns (ls : List Line) :
    groupLinesIntoBlocks ls = splitRuns linesJoin ls := by
  unfold groupLinesIntoBlocks
  cases h : ls with
  | nil => rfl
  | cons a rest =>
    dsimp only
    obtain ⟨f, gs, hs⟩ := splitRuns_cons_shape linesJoin a rest
    rw [chunkLoop_eq_splitRuns linesJoin rest [a] [] a f gs rfl hs, hs]
    simp

lemma jsCmp_neg (a b : Word) : jsCmp b a = -jsCmp a b := by
  simp only [jsCmp]
  rw [abs_sub_comm b.bbox.y a.bbox.y]
  split_ifs with h
  · ring
  · ring

lemma wordLe_total (a b : Word) : wordLe a b ∨ wordLe b a := by
  unfold wordLe
  rcases le_total (jsCmp a b) 0 with h | h
  · exact .inl h
  · right
    rw [jsCmp_neg]
    linarith

lemma wordLe_refl (a : Word) : wordLe a a := by
  simp only [wordLe, jsCmp]
  norm_num

lemma jsCmp_far (a b : Word) (h : (0.01 : ℚ) ≤ |a.bbox.y - b.bbox.y|) :
    jsCmp a b = a.bbox.y - b.bbox.y := by
  simp only [jsCmp]
  rw [if_neg (not_lt.mpr h)]

lemma pairwise_orderedInsert_local (r : Word → Word → Prop) [DecidableRel r]
    (S : List Word)
    (htotal : ∀ x ∈ S, ∀ y ∈ S, r x y ∨ r y x)
    (htrans : ∀ x ∈ S, ∀ y ∈ S, ∀ z ∈ S, r x y → r y z → r x z)
    (a : Word) (ha : a ∈ S) :
    ∀ s : List Word, (∀ x ∈ s, x ∈ S) → s.Pairwise r →
      (List.orderedInsert r a s).Pairwise r := by
  intro s
  induction s with
  | nil => intro _ _; simp
  | cons b s ih =>
    intro hmem hp
    rw [List.orderedInsert]
    by_cases hab : r a b
    · rw [if_pos hab]
      refine List.Pairwise.cons ?_ hp
      intro x hx
      rcases List.mem_cons.mp hx with rfl | hx
      · exact hab
      · have hbx : r b x := (List.pairwise_cons.mp hp).1 x hx
        exact htrans a ha b (hmem b (by simp)) x (hmem x (by simp [hx])) hab hbx
    · rw [if_neg hab]
      have hba : r b a := (htotal a ha b (hmem b (by simp))).resolve_left hab
      refine List.Pairwise.cons ?_
        (ih (fun x hx => hmem x (by simp [hx])) (List.pairwise_cons.mp hp).2)
      intro x hx
      rcases (List.mem_orderedInsert r).mp hx with rfl | hx
      · exact hba
      · exact (List.pairwise_cons.mp hp).1 x hx

lemma pairwise_insertionSort_local (r : Word → Word → Prop) [DecidableRel r]
    (S : List Word)
    (htotal : ∀ x ∈ S, ∀ y ∈ S, r x y ∨ r y x)
    (htrans : ∀ x ∈ S, ∀ y ∈ S, ∀ z ∈ S, r x y → r y z → r x z) :
    ∀ l : List Word, (∀ x ∈ l, x ∈ S) → (List.insertionSort r l).Pairwise r := by
  intro l
  induction l with
  | nil => intro _; simp
  | cons a l ih =>
    intro hmem
    rw [List.insertionSort]
    refine pairwise_orderedInsert_local r S htotal htrans a (hmem a (by simp)) _ ?_ ?_
    · intro x hx
      exact hmem x (by simp [((List.perm_insertionSort r l).mem_iff).mp hx])
    · exact ih (fun x hx => hmem x (by simp [hx]))

lemma eq_of_perm_pairwise_local (r : Word → Word → Prop) :
    ∀ (l₁ l₂ : List Word), l₁.Perm l₂ → l₁.Pairwise r → l₂.Pairwise r →
      (∀ x ∈ l₁, ∀ y ∈ l₁, r x y → r y x → x = y) → l₁ = l₂ := by
  intro l₁
  induction l₁ with
  | nil =>
    intro l₂ hp _ _ _
    have := hp.length_eq
    cases l₂ with
    | nil => rfl
    | cons b t₂ => simp at this
  | cons a t₁ ih =>
    intro l₂ hp hp₁ hp₂ hanti
    cases l₂ with
    | nil =>
      have := hp.length_eq
      simp at this
    | cons b t₂ =>
      have hab : a = b := by
        by_cases h : a = b
        · exact h
        · have ha2 : a ∈ b :: t₂ := hp.mem_iff.mp (by simp)
          have hb1 : b ∈ a :: t₁ := hp.mem_iff.mpr (by simp)
          have ha2' : a ∈ t₂ := by
            rcases List.mem_cons.mp ha2 with h' | h'
            · exact absurd h' h
            · exact h'
          have hb1' : b ∈ t₁ := by
            rcases List.mem_cons.mp hb1 with h' | h'
            · exact absurd h'.symm h
            · exact h'
          have hrab : r a b := (List.pairwise_cons.mp hp₁).1 b hb1'
          have hrba : r b a := (List.pairwise_cons.mp hp₂).1 a ha2'
          exact absurd (hanti a (by simp) b (by simp [hb1']) hrab hrba) h
      subst hab
      have htail : t₁.Perm t₂ := hp.cons_inv
      have := ih t₂ htail (List.pairwise_cons.mp hp₁).2 (List.pairwise_cons.mp hp₂).2
        (fun x hx y hy => hanti x (by simp [hx]) y (by simp [hy]))
      rw [this]

lemma insertionSort_eq_of_perm_sep (l₁ l₂ : List Word)
    (hp : l₁.Perm l₂)
    (hsep : ∀ a ∈ l₁, ∀ b ∈ l₁, a = b ∨ (0.01 : ℚ) ≤ |a.bbox.y - b.bbox.y|) :
    List.insertionSort wordLe l₁ = List.insertionSort wordLe l₂ := by
  have htotal : ∀ x ∈ l₁, ∀ y ∈ l₁, wordLe x y ∨ wordLe y x :=
    fun x _ y _ => wordLe_total x y
  have htrans : ∀ x ∈ l₁, ∀ y ∈ l₁, ∀ z ∈ l₁, wordLe x y → wordLe y z → wordLe x z := by
    intro x hx y hy z hz h1 h2
    rcases hsep x hx y hy with rfl | hxy
    · exact h2
    rcases hsep y hy z hz with rfl | hyz
    · exact h1
    rcases hsep x hx z hz with rfl | hxz
    · exact wordLe_refl x
    unfold wordLe at h1 h2 ⊢
    rw [jsCmp_far x y hxy] at h1
    rw [jsCmp_far y z hyz] at h2
    rw [jsCmp_far x z hxz]
    linarith
  have hanti : ∀ x ∈ l₁, ∀ y ∈ l₁, wordLe x y → wordLe y x → x = y := by
    intro x hx y hy h1 h2
    rcases hsep x hx y hy with rfl | hxy
    · rfl
    unfold wordLe at h1 h2
    rw [jsCmp_far x y hxy] at h1
    rw [jsCmp_far y x (by rwa [abs_sub_comm])] at h2
    have : x.bbox.y = y.bbox.y := by linarith
    rw [this, sub_self, abs_zero] at hxy
    linarith
  have hs₁ : (List.insertionSort wordLe l₁).Pairwise wordLe :=
    pairwise_insertionSort_local wordLe l₁ htotal htrans l₁ (fun x hx => hx)
  have hs₂ : (List.insertionSort wordLe l₂).Pairwise wordLe :=
    pairwise_insertionSort_local wordLe l₁ htotal htrans l₂
      (fun x hx => hp.mem_iff.mpr hx)
  have hperm : (List.insertionSort wordLe l₁).Perm (List.insertionSort wordLe l₂) :=
    (List.perm_insertionSort _ l₁).trans (hp.trans (List.perm_insertionSort _ l₂).symm)
  exact eq_of_perm_pairwise_local wordLe _ _ hperm hs₁ hs₂
    (fun x hx y hy => hanti x ((List.perm_insertionSort _ l₁).mem_iff.mp hx)
      y ((List.perm_insertionSort _ l₁).mem_iff.mp hy))

/-- C10: `groupWordsIntoLines` returns only nonempty groups whose
concatenation is a permutation of the input word list (each word placed in
exactly one line, none dropped or duplicated; the internal sort permutes
them), and `groupLinesIntoBlocks` partitions its input lines into nonempty
blocks preserving every line exactly once and in order. -/
theorem grouping_partitions (l : List Word) (ls : List Line) :
    (∀ g ∈ groupWordsIntoLines l, g ≠ []) ∧
    (groupWordsIntoLines l).flatten.Perm l ∧
    (∀ g ∈ groupLinesIntoBlocks ls, g ≠ []) ∧
    (groupLinesIntoBlocks ls).flatten = ls := by
  refine ⟨?_, ?_, ?_, ?_⟩
  · rw [groupWordsIntoLines_eq_splitRuns]
    exact splitRuns_ne_nil _ _
  · rw [groupWordsIntoLines_eq_splitRuns, splitRuns_flatten]
    exact List.perm_insertionSort wordLe l
  · rw [groupLinesIntoBlocks_eq_splitRuns]
    exact splitRuns_ne_nil _ _
  · rw [groupLinesIntoBlocks_eq_splitRuns, splitRuns_flatten]

/-- C5 (amended): in the left-to-right scan a word joins the current line
exactly when its `bbox.y` (top edge, not the vertical center) differs from
the `bbox.y` of the current line's last word by less than `0.02`
(`groupWordsIntoLines` equals the run-splitting of the sorted words by that
join rule), and a word set pairwise more than `0.02` apart in `bbox.y`
yields one line per word. -/
theorem line_join_rule (l : List Word) :
    groupWordsIntoLines l = splitRuns closeWords (List.insertionSort wordLe l) ∧
    (l.Pairwise (fun a b => (0.02 : ℚ) < |a.bbox.y - b.bbox.y|) →
      groupWordsIntoLines l = (List.insertionSort wordLe l).map (fun w => [w])) := by
  refine ⟨groupWordsIntoLines_eq_splitRuns l, fun hf => ?_⟩
  rw [groupWordsIntoLines_eq_splitRuns]
  apply splitRuns_of_chain_not
  have hf' : (List.insertionSort wordLe l).Pairwise
      (fun a b => (0.02 : ℚ) < |a.bbox.y - b.bbox.y|) :=
    ((List.perm_insertionSort wordLe l).pairwise_iff
      (fun h => by rwa [abs_sub_comm])).mpr hf
  refine hf'.chain'.imp ?_
  intro a b hab
  simp only [closeWords]
  rw [decide_eq_false_iff_not]
  rw [abs_sub_comm]
  exact not_lt.mpr (le_of_lt hab)

/-- C5 witness: two words with `bbox.y` equal to `0` and `1/10` are pairwise
far, so the grouping yields one line per word. -/
theorem line_join_rule_witness :
    groupWordsIntoLines
      [⟨"u".toList, ⟨0, 0, 1/100, 1/100⟩, 9/10, "Arial".toList, 12⟩,
       ⟨"v".toList, ⟨0, 1/10, 1/100, 1/100⟩, 9/10, "Arial".toList, 12⟩] =
    (List.insertionSort wordLe
      [⟨"u".toList, ⟨0, 0, 1/100, 1/100⟩, 9/10, "Arial".toList, 12⟩,
       ⟨"v".toList, ⟨0, 1/10, 1/100, 1/100⟩, 9/10, "Arial".toList, 12⟩]).map (fun w => [w]) :=
  (line_join_rule _).2 (by
    norm_num [List.pairwise_cons, abs_of_nonneg, abs_of_nonpos])

/-- C5 counterexample: two words whose vertical centers coincide (difference
`0 < 0.02`) but whose `bbox.y` values differ by `0.025` are put in separate
lines, refuting the claim that the join test uses vertical centers. -/
theorem line_join_center_counterexample :
    |(((⟨"p".toList, ⟨1/10, 0, 1/10, 6/100⟩, 9/10, "Arial".toList, 12⟩ : Word).bbox.y +
        (⟨"p".toList, ⟨1/10, 0, 1/10, 6/100⟩, 9/10, "Arial".toList, 12⟩ : Word).bbox.height / 2) -
       ((⟨"q".toList, ⟨1/10, 1/40, 1/10, 1/100⟩, 9/10, "Arial".toList, 12⟩ : Word).bbox.y +
        (⟨"q".toList, ⟨1/10, 1/40, 1/10, 1/100⟩, 9/10, "Arial".toList, 12⟩ : Word).bbox.height / 2))| <
      (0.02 : ℚ) ∧
    groupWordsIntoLines
      [⟨"p".toList, ⟨1/10, 0, 1/10, 6/100⟩, 9/10, "Arial".toList, 12⟩,
       ⟨"q".toList, ⟨1/10, 1/40, 1/10, 1/100⟩, 9/10, "Arial".toList, 12⟩] =
    [[⟨"p".toList, ⟨1/10, 0, 1/10, 6/100⟩, 9/10, "Arial".toList, 12⟩],
     [⟨"q".toList, ⟨1/10, 1/40, 1/10, 1/100⟩, 9/10, "Arial".toList, 12⟩]] := by
  constructor
  · norm_num
  · norm_num [groupWordsIntoLines, List.insertionSort, List.orderedInsert, wordLe, jsCmp,
      chunkLoop, closeWords, abs_of_nonneg, abs_of_nonpos]

/-- C4 counterexample: the sort comparator is not transitive (the `< 0.01`
x-tiebreak is not an equivalence), so two orderings of the same four words
produce different line partitions. -/
theorem grouping_order_counterexample :
    ([⟨"a".toList, ⟨5, 1/200, 1/100, 1/100⟩, 9/10, "Arial".toList, 12⟩,
      ⟨"b".toList, ⟨6, 0, 1/100, 1/100⟩, 9/10, "Arial".toList, 12⟩,
      ⟨"c".toList, ⟨0, 3/250, 1/100, 1/100⟩, 9/10, "Arial".toList, 12⟩,
      ⟨"d".toList, ⟨-1, 41/2000, 1/100, 1/100⟩, 9/10, "Arial".toList, 12⟩] : List Word).Perm
      [⟨"c".toList, ⟨0, 3/250, 1/100, 1/100⟩, 9/10, "Arial".toList, 12⟩,
       ⟨"a".toList, ⟨5, 1/200, 1/100, 1/100⟩, 9/10, "Arial".toList, 12⟩,
       ⟨"b".toList, ⟨6, 0, 1/100, 1/100⟩, 9/10, "Arial".toList, 12⟩,
       ⟨"d".toList, ⟨-1, 41/2000, 1/100, 1/100⟩, 9/10, "Arial".toList, 12⟩] ∧
    groupWordsIntoLines
      [⟨"a".toList, ⟨5, 1/200, 1/100, 1/100⟩, 9/10, "Arial".toList, 12⟩,
       ⟨"b".toList, ⟨6, 0, 1/100, 1/100⟩, 9/10, "Arial".toList, 12⟩,
       ⟨"c".toList, ⟨0, 3/250, 1/100, 1/100⟩, 9/10, "Arial".toList, 12⟩,
       ⟨"d".toList, ⟨-1, 41/2000, 1/100, 1/100⟩, 9/10, "Arial".toList, 12⟩] =
      [[⟨"a".toList, ⟨5, 1/200, 1/100, 1/100⟩, 9/10, "Arial".toList, 12⟩,
        ⟨"b".toList, ⟨6, 0, 1/100, 1/100⟩, 9/10, "Arial".toList, 12⟩],
       [⟨"d".toList, ⟨-1, 41/2000, 1/100, 1/100⟩, 9/10, "Arial".toList, 12⟩,
        ⟨"c".toList, ⟨0, 3/250, 1/100, 1/100⟩, 9/10, "Arial".toList, 12⟩]] ∧
    groupWordsIntoLines
      [⟨"c".toList, ⟨0, 3/250, 1/100, 1/100⟩, 9/10, "Arial".toList, 12⟩,
       ⟨"a".toList, ⟨5, 1/200, 1/100, 1/100⟩, 9/10, "Arial".toList, 12⟩,
       ⟨"b".toList, ⟨6, 0, 1/100, 1/100⟩, 9/10, "Arial".toList, 12⟩,
       ⟨"d".toList, ⟨-1, 41/2000, 1/100, 1/100⟩, 9/10, "Arial".toList, 12⟩] =
      [[⟨"c".toList, ⟨0, 3/250, 1/100, 1/100⟩, 9/10, "Arial".toList, 12⟩,
        ⟨"a".toList, ⟨5, 1/200, 1/100, 1/100⟩, 9/10, "Arial".toList, 12⟩,
        ⟨"b".toList, ⟨6, 0, 1/100, 1/100⟩, 9/10, "Arial".toList, 12⟩],
       [⟨"d".toList, ⟨-1, 41/2000, 1/100, 1/100⟩, 9/10, "Arial".toList, 12⟩]] := by
  refine ⟨((List.Perm.swap _ _ _).cons _).trans (List.Perm.swap _ _ _), ?_, ?_⟩
  · norm_num [groupWordsIntoLines, List.insertionSort, List.orderedInsert, wordLe, jsCmp,
      chunkLoop, closeWords, abs_of_nonneg, abs_of_nonpos]
  · norm_num [groupWordsIntoLines, List.insertionSort, List.orderedInsert, wordLe, jsCmp,
      chunkLoop, closeWords, abs_of_nonneg, abs_of_nonpos]

/-- C4 (amended): the grouping pipeline is invariant under permutation of
the input array provided any two distinct words have `bbox.y` at least
`0.01` apart (which makes the sort comparator a consistent total order);
without that proviso the comparator is inconsistent and the result is
order-dependent. -/
theorem grouping_perm_invariant (l₁ l₂ : List Word)
    (hp : l₁.Perm l₂)
    (hsep : ∀ a ∈ l₁, ∀ b ∈ l₁, a = b ∨ (0.01 : ℚ) ≤ |a.bbox.y - b.bbox.y|) :
    groupWordsIntoLines l₁ = groupWordsIntoLines l₂ ∧
    groupLinesIntoBlocks (buildLines (groupWordsIntoLines l₁)) =
      groupLinesIntoBlocks (buildLines (groupWordsIntoLines l₂)) := by
  have h := insertionSort_eq_of_perm_sep l₁ l₂ hp hsep
  have h2 : groupWordsIntoLines l₁ = groupWordsIntoLines l₂ := by
    unfold groupWordsIntoLines
    rw [h]
  exact ⟨h2, by rw [h2]⟩

/-- C4 witness: two vertically well-separated words grouped identically from
either ordering. -/
theorem grouping_perm_invariant_witness :
    groupWordsIntoLines
      [⟨"u".toList, ⟨0, 0, 1/100, 1/100⟩, 9/10, "Arial".toList, 12⟩,
       ⟨"v".toList, ⟨0, 1/2, 1/100, 1/100⟩, 9/10, "Arial".toList, 12⟩] =
    groupWordsIntoLines
      [⟨"v".toList, ⟨0, 1/2, 1/100, 1/100⟩, 9/10, "Arial".toList, 12⟩,
       ⟨"u".toList, ⟨0, 0, 1/100, 1/100⟩, 9/10, "Arial".toList, 12⟩] :=
  (grouping_perm_invariant _ _ (List.Perm.swap _ _ _) (by
    intro a ha b hb
    simp only [List.mem_cons, List.not_mem_nil, or_false] at ha hb
    rcases ha with rfl | rfl <;> rcases hb with rfl | rfl
    · exact Or.inl rfl
    · right
      norm_num [abs_of_nonneg, abs_of_nonpos]
    · right
      norm_num [abs_of_nonneg, abs_of_nonpos]
    · exact Or.inl rfl)).1

lemma foldl_min_le_init (l : List ℚ) : ∀ a : ℚ, l.foldl min a ≤ a := by
  induction l with
  | nil => intro a; exact le_refl a
  | cons b t ih =>
    intro a
    calc (b :: t).foldl min a = t.foldl min (min a b) := rfl
    _ ≤ min a b := ih (min a b)
    _ ≤ a := min_le_left a b

lemma foldl_min_le_mem (l : List ℚ) : ∀ a : ℚ, ∀ x ∈ l, l.foldl min a ≤ x := by
  induction l with
  | nil => intro a x hx; simp at hx
  | cons b t ih =>
    intro a x hx
    rcases List.mem_cons.mp hx with rfl | hx
    · calc (x :: t).foldl min a = t.foldl min (min a x) := rfl
      _ ≤ min a x := foldl_min_le_init t (min a x)
      _ ≤ x := min_le_right a x
    · exact ih (min a b) x hx

lemma le_foldl_min (l : List ℚ) : ∀ a q : ℚ, q ≤ a → (∀ x ∈ l, q ≤ x) →
    q ≤ l.foldl min a := by
  induction l with
  | nil => intro a q h _; exact h
  | cons b t ih =>
    intro a q h hl
    exact ih (min a b) q (le_min h (hl b (by simp))) (fun x hx => hl x (by simp [hx]))

lemma init_le_foldl_max (l : List ℚ) : ∀ a : ℚ, a ≤ l.foldl max a := by
  induction l with
  | nil => intro a; exact le_refl a
  | cons b t ih =>
    intro a
    calc a ≤ max a b := le_max_left a b
    _ ≤ t.foldl max (max a b) := ih (max a b)
    _ = (b :: t).foldl max a := rfl

lemma mem_le_foldl_max (l : List ℚ) : ∀ a : ℚ, ∀ x ∈ l, x ≤ l.foldl max a := by
  induction l with
  | nil => intro a x hx; simp at hx
  | cons b t ih =>
    intro a x hx
    rcases List.mem_cons.mp hx with rfl | hx
    · calc x ≤ max a x := le_max_right a x
      _ ≤ t.foldl max (max a x) := init_le_foldl_max t (max a x)
      _ = (x :: t).foldl max a := rfl
    · exact ih (max a b) x hx

lemma foldl_max_le (l : List ℚ) : ∀ a q : ℚ, a ≤ q → (∀ x ∈ l, x ≤ q) →
    l.foldl max a ≤ q := by
  induction l with
  | nil => intro a q h _; exact h
  | cons b t ih =>
    intro a q h hl
    exact ih (max a b) q (max_le h (hl b (by simp))) (fun x hx => hl x (by simp [hx]))

/-- C7: `calculateBoundingBox` maps the empty list to the zero box, and a
nonempty list to the minimal axis-aligned box covering all inputs: it covers
every input box, and every box covering all inputs covers it (equivalently,
its edges are `min x`, `min y`, `max (x+width)`, `max (y+height)`). -/
theorem calculateBoundingBox_spec :
    calculateBoundingBox [] = ⟨0, 0, 0, 0⟩ ∧
    ∀ l : List BoundingBox, l ≠ [] →
      (∀ b ∈ l, covers (calculateBoundingBox l) b) ∧
      (∀ c : BoundingBox, (∀ b ∈ l, covers c b) → covers c (calculateBoundingBox l)) := by
  refine ⟨rfl, ?_⟩
  intro l hl
  cases l with
  | nil => exact absurd rfl hl
  | cons b bs =>
    constructor
    · intro b' hb'
      refine ⟨?_, ?_, ?_, ?_⟩
      · show (bs.map (fun v => v.x)).foldl min b.x ≤ b'.x
        rcases List.mem_cons.mp hb' with rfl | hb'
        · exact foldl_min_le_init _ _
        · exact foldl_min_le_mem _ _ b'.x (List.mem_map_of_mem _ hb')
      · show (bs.map (fun v => v.y)).foldl min b.y ≤ b'.y
        rcases List.mem_cons.mp hb' with rfl | hb'
        · exact foldl_min_le_init _ _
        · exact foldl_min_le_mem _ _ b'.y (List.mem_map_of_mem _ hb')
      · show b'.x + b'.width ≤
          (bs.map (fun v => v.x)).foldl min b.x +
            ((bs.map (fun v => v.x + v.width)).foldl max (b.x + b.width) -
              (bs.map (fun v => v.x)).foldl min b.x)
        rw [add_sub_cancel]
        rcases List.mem_cons.mp hb' with rfl | hb'
        · exact init_le_foldl_max _ _
        · exact mem_le_foldl_max _ _ (b'.x + b'.width) (List.mem_map_of_mem _ hb')
      · show b'.y + b'.height ≤
          (bs.map (fun v => v.y)).foldl min b.y +
            ((bs.map (fun v => v.y + v.height)).foldl max (b.y + b.height) -
              (bs.map (fun v => v.y)).foldl min b.y)
        rw [add_sub_cancel]
        rcases List.mem_cons.mp hb' with rfl | hb'
        · exact init_le_foldl_max _ _
        · exact mem_le_foldl_max _ _ (b'.y + b'.height) (List.mem_map_of_mem _ hb')
    · intro c hc
      refine ⟨?_, ?_, ?_, ?_⟩
      · show c.x ≤ (bs.map (fun v => v.x)).foldl min b.x
        refine le_foldl_min _ _ _ (hc b (by simp)).1 ?_
        intro x hx
        obtain ⟨v, hv, rfl⟩ := List.mem_map.mp hx
        exact (hc v (by simp [hv])).1
      · show c.y ≤ (bs.map (fun v => v.y)).foldl min b.y
        refine le_foldl_min _ _ _ (hc b (by simp)).2.1 ?_
        intro x hx
        obtain ⟨v, hv, rfl⟩ := List.mem_map.mp hx
        exact (hc v (by simp [hv])).2.1
      · show (bs.map (fun v => v.x)).foldl min b.x +
            ((bs.map (fun v => v.x + v.width)).foldl max (b.x + b.width) -
              (bs.map (fun v => v.x)).foldl min b.x) ≤ c.x + c.width
        rw [add_sub_cancel]
        refine foldl_max_le _ _ _ (hc b (by simp)).2.2.1 ?_
        intro x hx
        obtain ⟨v, hv, rfl⟩ := List.mem_map.mp hx
        exact (hc v (by simp [hv])).2.2.1
      · show (bs.map (fun v => v.y)).foldl min b.y +
            ((bs.map (fun v => v.y + v.height)).foldl max (b.y + b.height) -
              (bs.map (fun v => v.y)).foldl min b.y) ≤ c.y + c.height
        rw [add_sub_cancel]
        refine foldl_max_le _ _ _ (hc b (by simp)).2.2.2 ?_
        intro x hx
        obtain ⟨v, hv, rfl⟩ := List.mem_map.mp hx
        exact (hc v (by simp [hv])).2.2.2

/-- C7 witness: the union box of two concrete boxes covers the second one. -/
theorem calculateBoundingBox_spec_witness :
    covers (calculateBoundingBox [⟨0, 0, 1, 1⟩, ⟨2, 3, 1, 1⟩]) ⟨2, 3, 1, 1⟩ :=
  (calculateBoundingBox_spec.2 [⟨0, 0, 1, 1⟩, ⟨2, 3, 1, 1⟩] (by simp)).1
    ⟨2, 3, 1, 1⟩ (by simp)

lemma gapFold_blocks_proj (pn : ℕ) :
    ∀ (ms : List (ℕ × StructureElement))
      (st : List Word × List Line × List Block × List LegacyTextChunk),
      ((ms.foldl (gapStep pn) st).2.2.1).map (fun b => (b.type, b.confidence, b.semanticRole)) =
        (st.2.2.1).map (fun b => (b.type, b.confidence, b.semanticRole)) ++
          ms.map (fun p => (mapElementTypeToBlockType p.2.type, p.2.confidence, some p.2.type)) := by
  intro ms
  induction ms with
  | nil => intro st; simp
  | cons p ms ih =>
    intro st
    obtain ⟨ws, ls, bs, cs⟩ := st
    rw [List.foldl_cons, ih]
    simp [gapStep]

lemma gapFold_blocks_grow (pn : ℕ) :
    ∀ (ms : List (ℕ × StructureElement))
      (st : List Word × List Line × List Block × List LegacyTextChunk),
      ∃ rest, (ms.foldl (gapStep pn) st).2.2.1 = st.2.2.1 ++ rest := by
  intro ms
  induction ms with
  | nil => intro st; exact ⟨[], by simp⟩
  | cons p ms ih =>
    intro st
    obtain ⟨ws, ls, bs, cs⟩ := st
    rw [List.foldl_cons]
    obtain ⟨rest, hrest⟩ := ih (gapStep pn (ws, ls, bs, cs) p)
    refine ⟨?_, ?_⟩
    · exact (gapStep pn (ws, ls, bs, cs) p).2.2.1.drop bs.length ++ rest
    · rw [hrest]
      have : (gapStep pn (ws, ls, bs, cs) p).2.2.1 =
          bs ++ (gapStep pn (ws, ls, bs, cs) p).2.2.1.drop bs.length := by
        simp [gapStep]
      rw [this]
      simp

/-- C3: the coverage-gap repair fires iff the complete vision text is
strictly longer than 1.2 times the concatenated recognized word text; when
it does not fire (ratio at most 1.2, e.g. 1.1 or exactly 1.2) the word,
line, block and chunk sets are unchanged, and when it fires (e.g. ratio 1.3)
it appends to the blocks exactly one new block per structural element whose
lower-cased trimmed content is nonempty and not a case-insensitive substring
of the recognized text, carrying that element's mapped type, confidence and
role. -/
theorem gap_repair_trigger (pn : ℕ) (elements : List StructureElement)
    (completeText : Str) (words : List Word) (lines : List Line)
    (blocks : List Block) (chunks : List LegacyTextChunk) :
    (¬ ((joinSpace (words.map (fun w => w.text))).length : ℚ) * 1.2 <
        (completeText.length : ℚ) →
      ensureAllTextCaptured pn elements completeText words lines blocks chunks =
        (words, lines, blocks, chunks)) ∧
    (((joinSpace (words.map (fun w => w.text))).length : ℚ) * 1.2 <
        (completeText.length : ℚ) →
      ((ensureAllTextCaptured pn elements completeText words lines blocks chunks).2.2.1).map
          (fun b => (b.type, b.confidence, b.semanticRole)) =
        blocks.map (fun b => (b.type, b.confidence, b.semanticRole)) ++
          (elements.filter (fun e =>
            let et := jsTrim (jsToLower e.content)
            !et.isEmpty &&
              !jsIncludes (jsToLower (joinSpace (words.map (fun w => w.text)))) et)).map
            (fun e => (mapElementTypeToBlockType e.type, e.confidence, some e.type)) ∧
      ((ensureAllTextCaptured pn elements completeText words lines blocks chunks).2.2.1).take
          blocks.length = blocks ∧
      ((ensureAllTextCaptured pn elements completeText words lines blocks chunks).2.2.1).length =
        blocks.length +
          (elements.filter (fun e =>
            let et := jsTrim (jsToLower e.content)
            !et.isEmpty &&
              !jsIncludes (jsToLower (joinSpace (words.map (fun w => w.text)))) et)).length) := by
  constructor
  · intro hlt
    rw [ensureAllTextCaptured, if_neg (by exact fun h => hlt (by exact gt_iff_lt.mp h))]
  · intro hlt
    rw [ensureAllTextCaptured, if_pos (gt_iff_lt.mpr hlt)]
    refine ⟨?_, ?_, ?_⟩
    · rw [gapFold_blocks_proj]
      congr 1
      have hm : ∀ ms : List StructureElement,
          ms.enum.map (fun p => (mapElementTypeToBlockType p.2.type, p.2.confidence,
            some p.2.type)) =
          (ms.enum.map Prod.snd).map (fun e => (mapElementTypeToBlockType e.type,
            e.confidence, some e.type)) := by
        intro ms
        rw [List.map_map]
        rfl
      rw [hm, List.enum_map_snd]
    · obtain ⟨rest, hrest⟩ := gapFold_blocks_grow pn
        ((elements.filter _).enum) (words, lines, blocks, chunks)
      rw [hrest]
      exact List.take_left blocks rest
    · have hproj := gapFold_blocks_proj pn ((elements.filter (fun e =>
        let et := jsTrim (jsToLower e.content)
        !et.isEmpty &&
          !jsIncludes (jsToLower (joinSpace (words.map (fun w => w.text)))) et)).enum)
        (words, lines, blocks, chunks)
      have := congrArg List.length hproj
      simpa using this

/-- C3 witness: with a 10-character recognized text and a 13-character
complete text (ratio 1.3), the repair fires and appends one block for the
one uncovered structural element. -/
theorem gap_repair_trigger_witness :
    ((ensureAllTextCaptured 1 [⟨"footer".toList, "zz".toList, 9/10⟩]
        "abcdefghijklm".toList
        [⟨"abcdefghij".toList, ⟨0, 0, 1/10, 1/10⟩, 9/10, "Arial".toList, 12⟩]
        [] [] []).2.2.1).length =
      ([] : List Block).length +
        (([⟨"footer".toList, "zz".toList, 9/10⟩] : List StructureElement).filter (fun e =>
          let et := jsTrim (jsToLower e.content)
          !et.isEmpty &&
            !jsIncludes (jsToLower (joinSpace
              (([⟨"abcdefghij".toList, ⟨0, 0, 1/10, 1/10⟩, 9/10, "Arial".toList, 12⟩] :
                List Word).map (fun w => w.text)))) et)).length :=
  ((gap_repair_trigger 1 [⟨"footer".toList, "zz".toList, 9/10⟩]
      "abcdefghijklm".toList
      [⟨"abcdefghij".toList, ⟨0, 0, 1/10, 1/10⟩, 9/10, "Arial".toList, 12⟩]
      [] [] []).2 (by
        show ((10 : ℕ) : ℚ) * 1.2 < ((13 : ℕ) : ℚ)
        norm_num)).2.2

lemma pageProgressValues_eq (N : ℕ) (hN : 0 < N) (i : ℕ) :
    pageProgressValues N (i + 1) =
      (List.range 6).map (fun k => 10 + (40 / (3 * (N : ℚ))) * (((6 * i + k : ℕ) : ℚ) + 1)) := by
  unfold pageProgressValues
  apply List.map_eq_map_iff.mpr
  intro k hk
  have hN' : ((N : ℚ)) ≠ 0 := by
    exact_mod_cast Nat.pos_iff_ne_zero.mp hN
  push_cast
  field_simp
  ring

lemma flatMap_range_six (F : ℕ → ℚ) :
    ∀ m : ℕ, (List.range m).flatMap (fun i => (List.range 6).map (fun k => F (6 * i + k))) =
      (List.range (6 * m)).map F := by
  intro m
  induction m with
  | zero => simp
  | succ m ih =>
    rw [List.range_succ, List.flatMap_append, ih]
    have h6 : 6 * (m + 1) = 6 * m + 6 := by ring
    rw [h6, List.range_add, List.map_append, List.map_map]
    simp

lemma progressSeq_eq (N : ℕ) (hN : 0 < N) :
    progressSeq N =
      10 :: (((List.range (6 * N)).map
        (fun j : ℕ => 10 + (40 / (3 * (N : ℚ))) * ((j : ℚ) + 1))) ++ [100]) := by
  unfold progressSeq
  have hfun : (fun i => pageProgressValues N (i + 1)) =
      (fun i => (List.range 6).map
        (fun k => (fun j : ℕ => 10 + (40 / (3 * (N : ℚ))) * ((j : ℚ) + 1)) (6 * i + k))) :=
    funext (pageProgressValues_eq N hN)
  rw [hfun, flatMap_range_six (fun j : ℕ => 10 + (40 / (3 * (N : ℚ))) * ((j : ℚ) + 1)) N]

lemma chain_le_map_range (g : ℕ → ℚ) (hg : ∀ j, g j ≤ g (j + 1)) :
    ∀ m : ℕ, ((List.range m).map g).Chain' (· ≤ ·) ∧
      (∀ x ∈ ((List.range m).map g).getLast?, x = g (m - 1)) := by
  intro m
  induction m with
  | zero => exact ⟨List.chain'_nil, by simp⟩
  | succ m ih =>
    rw [List.range_succ, List.map_append]
    constructor
    · rw [List.chain'_append]
      refine ⟨ih.1, List.chain'_singleton _, ?_⟩
      intro x hx y hy
      simp only [List.map_cons, List.map_nil, List.head?_cons, Option.mem_def,
        Option.some.injEq] at hy
      cases m with
      | zero => simp at hx
      | succ m' =>
        have hx' := ih.2 x hx
        rw [hx', ← hy]
        simpa using hg m'
    · intro x hx
      simp only [List.map_cons, List.map_nil, List.getLast?_concat, Option.mem_def,
        Option.some.injEq] at hx
      simp [hx]

/-- C9: over a successful run with at least one page, the reported progress
values are non-decreasing, all lie in `[0, 100]`, the value `100` occurs
nowhere before the final report, and the final report is exactly `100`
(emitted only after the last page's completion callback assembled the
result). -/
theorem progress_spec (N : ℕ) (hN : 0 < N) :
    (progressSeq N).Chain' (· ≤ ·) ∧
    (∀ v ∈ progressSeq N, 0 ≤ v ∧ v ≤ 100) ∧
    (∀ v ∈ (progressSeq N).dropLast, v ≠ 100) ∧
    (progressSeq N).getLast? = some 100 := by
  have hNq : (0 : ℚ) < (N : ℚ) := by exact_mod_cast hN
  have hc : (0 : ℚ) < 40 / (3 * (N : ℚ)) := by positivity
  have hgmono : ∀ j : ℕ,
      10 + (40 / (3 * (N : ℚ))) * ((j : ℚ) + 1) ≤
        10 + (40 / (3 * (N : ℚ))) * (((j + 1 : ℕ) : ℚ) + 1) := by
    intro j
    push_cast
    nlinarith [hc.le]
  have hFb : ∀ j : ℕ, j < 6 * N →
      0 ≤ 10 + (40 / (3 * (N : ℚ))) * ((j : ℚ) + 1) ∧
        10 + (40 / (3 * (N : ℚ))) * ((j : ℚ) + 1) ≤ 90 := by
    intro j hj
    constructor
    · positivity
    · have hj' : ((j : ℚ) + 1) ≤ 6 * (N : ℚ) := by
        have : (j : ℚ) + 1 ≤ ((6 * N : ℕ) : ℚ) := by
          exact_mod_cast Nat.succ_le_of_lt hj
        simpa using this
      have h80 : (40 / (3 * (N : ℚ))) * (6 * (N : ℚ)) = 80 := by
        field_simp
        ring
      have := mul_le_mul_of_nonneg_left hj' hc.le
      linarith [h80 ▸ this]
  have hch := chain_le_map_range
    (fun j : ℕ => 10 + (40 / (3 * (N : ℚ))) * ((j : ℚ) + 1)) hgmono (6 * N)
  obtain ⟨m', hm'⟩ : ∃ m', 6 * N = m' + 1 := ⟨6 * N - 1, by omega⟩
  have hmid : ((List.range (6 * N)).map
      (fun j : ℕ => 10 + (40 / (3 * (N : ℚ))) * ((j : ℚ) + 1))) =
      (10 + (40 / (3 * (N : ℚ))) * (((0 : ℕ) : ℚ) + 1)) ::
        ((List.range m').map Nat.succ).map
          (fun j : ℕ => 10 + (40 / (3 * (N : ℚ))) * ((j : ℚ) + 1)) := by
    rw [hm', List.range_succ_eq_map, List.map_cons]
  rw [progressSeq_eq N hN]
  refine ⟨?_, ?_, ?_, ?_⟩
  · rw [List.chain'_cons']
    constructor
    · intro y hy
      rw [hmid, List.cons_append, List.head?_cons] at hy
      simp only [Option.mem_def, Option.some.injEq] at hy
      rw [← hy]
      push_cast
      nlinarith [hc.le]
    · rw [List.chain'_append]
      refine ⟨hch.1, List.chain'_singleton _, ?_⟩
      intro x hx y hy
      simp only [List.head?_cons, Option.mem_def, Option.some.injEq] at hy
      have hx' := hch.2 x hx
      have hb := hFb (6 * N - 1) (by omega)
      rw [hx', ← hy]
      linarith [hb.2]
  · intro v hv
    simp only [List.mem_cons, List.mem_append, List.mem_map, List.mem_range] at hv
    rcases hv with rfl | ⟨j, hj, rfl⟩ | rfl | hv
    · norm_num
    · have hb := hFb j hj
      exact ⟨hb.1, by linarith [hb.2]⟩
    · norm_num
    · simp at hv
  · intro v hv
    rw [← List.cons_append, List.dropLast_concat] at hv
    rcases List.mem_cons.mp hv with rfl | hv
    · norm_num
    · obtain ⟨j, hj, rfl⟩ := List.mem_map.mp hv
      have hb := (hFb j (List.mem_range.mp hj)).2
      intro h100
      rw [h100] at hb
      linarith
  · rw [← List.cons_append, List.getLast?_concat]

/-- C9 witness: the progress sequence of a one-page document is
non-decreasing. -/
theorem progress_spec_witness : (progressSeq 1).Chain' (· ≤ ·) :=
  (progress_spec 1 (by norm_num)).1

/-- C2 (amended): whenever the vision call throws, the exception is consumed
inside `performGeminiExtraction` and the page is rebuilt by
`tesseractFallback` from one OCR run under the single fixed configuration —
the result is a function of `recognize fallbackOcrConfig` alone, with no
multi-configuration retry — and its block list is one block whose confidence
is the constant `0.8` (not the mean of per-line mean word confidence). -/
theorem vision_failure_fallback (inp : PageInputs) (d : OcrData)
    (hv : inp.vision = .error ())
    (hr : inp.recognize fallbackOcrConfig = .ok d) :
    performGeminiExtraction inp =
      .ok (tesseractFallback inp.canvasWidth inp.canvasHeight inp.pageNumber d) ∧
    (tesseractFallback inp.canvasWidth inp.canvasHeight inp.pageNumber d).irPage.blocks.map
        (fun b => b.confidence) = [0.8] := by
  constructor
  · rw [performGeminiExtraction, hv, hr]
  · simp [tesseractFallback]

/-- C2 witness: a concrete vision-failing page is rebuilt by the fallback. -/
theorem vision_failure_fallback_witness :
    performGeminiExtraction visionFailInputs =
      .ok (tesseractFallback visionFailInputs.canvasWidth visionFailInputs.canvasHeight
        visionFailInputs.pageNumber visionFailOcrData) :=
  (vision_failure_fallback visionFailInputs visionFailOcrData rfl rfl).1

/-- C2 counterexample: on a vision-failing page with one OCR word of
confidence 50, the emitted block's confidence is the constant `4/5`, while
the mean of per-line mean word confidence is `1/2` — the claim's
block-confidence formula does not hold on the error path. -/
theorem vision_failure_conf_counterexample :
    (performGeminiExtraction visionFailInputs).map (fun r =>
        (r.irPage.blocks.map (fun b => b.confidence),
         r.irPage.blocks.map specMeanOfLineMeans)) =
      .ok ([4/5], [1/2]) ∧ ((1 : ℚ)/2 < 4/5) := by
  constructor
  · have h1 : (jsTrim "ocr".toList).isEmpty = false := by decide
    simp only [performGeminiExtraction, visionFailInputs, visionFailOcrData,
      tesseractFallback, List.filterMap_cons, List.filterMap_nil, h1,
      Bool.false_eq_true, if_false, if_true, List.map_cons, List.map_nil,
      List.isEmpty_cons, List.isEmpty_nil, Bool.not_false, Bool.not_true,
      Bool.false_and, Bool.and_false, List.append_nil, List.nil_append,
      groupWordsIntoLines, List.insertionSort, List.orderedInsert, chunkLoop,
      List.enum, List.enumFrom, calculateBoundingBox, specMeanOfLineMeans,
      Except.map, List.foldl_cons, List.foldl_nil, List.sum_cons, List.sum_nil,
      List.length_cons, List.length_nil]
    norm_num
  · norm_num

/-- C1 (code bug): on a page with a non-empty native text-layer item the
native branch throws (`w`/`h` are unbound at part_000:203-204), so the page
is rebuilt by the catch-block OCR fallback: the word set comes from OCR with
confidence `1/2`, not from the native items at `0.98`. -/
theorem native_path_reference_error :
    (performGeminiExtraction nativeBugInputs).map
        (fun r => r.irPage.words.map (fun w => (w.text, w.confidence))) =
      .ok [("ocr".toList, 1/2)] ∧ ((1 : ℚ)/2 < 0.98) := by
  constructor
  · have h1 : (jsTrim "ocr".toList).isEmpty = false := by decide
    have h2 : (jsTrim "Hello".toList).isEmpty = false := by decide
    simp only [performGeminiExtraction, nativeBugInputs, nativeBugOcrData,
      mainExtraction, tryOcrConfigs, tryOcrConfigsAux, ocrConfigs, primaryWords,
      fallbackOcrConfig, tesseractFallback, List.any_cons, List.any_nil, h1, h2,
      Bool.not_false, Bool.or_false, Bool.true_or, List.length_cons,
      List.length_nil, List.filterMap_cons, List.filterMap_nil,
      Bool.false_eq_true, if_false, if_true, List.map_cons, List.map_nil,
      List.isEmpty_cons, List.isEmpty_nil, Bool.not_true, Bool.false_and,
      Bool.and_false, List.append_nil, List.nil_append, groupWordsIntoLines,
      List.insertionSort, List.orderedInsert, chunkLoop, List.enum,
      List.enumFrom, calculateBoundingBox, Except.map, List.foldl_cons,
      List.foldl_nil]
    have h3 : jsTrim ['o', 'c', 'r'] = ['o', 'c', 'r'] := by decide
    simp [h3]
    all_goals norm_num
  · norm_num

/-- C8 (code bug): on the vision-failure fallback path the legacy chunk
geometry is emitted in raw raster pixels (part_000:640-643): on a 1000×800
canvas a word at pixel `x0 = 500` yields `geometry.x = 500`, outside the
percentage range `[0, 100]`. -/
theorem fallback_chunk_pixel_geometry :
    (performGeminiExtraction pixelInputs).map
        (fun r => r.legacyChunks.map (fun c => c.geometry.x)) =
      .ok [500] ∧ ((100 : ℚ) < 500) := by
  constructor
  · have h1 : (jsTrim "px".toList).isEmpty = false := by decide
    simp only [performGeminiExtraction, pixelInputs, pixelOcrData,
      tesseractFallback, fallbackOcrConfig, List.filterMap_cons,
      List.filterMap_nil, h1, Bool.false_eq_true, if_false, if_true,
      List.map_cons, List.map_nil, List.isEmpty_cons, List.isEmpty_nil,
      Bool.not_false, Bool.not_true, Bool.false_and, Bool.and_false,
      List.append_nil, List.nil_append, groupWordsIntoLines,
      List.insertionSort, List.orderedInsert, chunkLoop, List.enum,
      List.enumFrom, calculateBoundingBox, Except.map, List.foldl_cons,
      List.foldl_nil]
    have h3 : jsTrim ['p', 'x'] = ['p', 'x'] := by decide
    simp [h3]
  · norm_num

/-- C6: when the native layer is absent, every OCR configuration yields no
words, and the vision model returns empty text (both the plain text and the
structural complete text), the page's chunk output is exactly the single
placeholder chunk `"No text detected"` at `(10, 10, 20, 5)`. -/
theorem no_text_placeholder (inp : PageInputs) (gem : GeminiResult)
    (struc : StructureResult)
    (hv : inp.vision = .ok (gem, struc))
    (hitems : inp.pdfItems = [])
    (hocr : tryOcrConfigs inp.recognize = none)
    (hg : gem.text = [])
    (hc : struc.completeText = []) :
    (performGeminiExtraction inp).map (fun r => r.legacyChunks) =
      .ok [placeholderChunk inp.pageNumber] := by
  simp only [performGeminiExtraction, mainExtraction, hv, hitems, hocr, hg, hc,
    primaryWords, fallbackStep, lineFallback, flowFallback, buildLines,
    groupWordsIntoLines, List.insertionSort, buildSemanticMap, buildBlocks,
    groupLinesIntoBlocks, ensureAllTextCaptured, joinSpace, List.intercalate,
    List.length_nil, List.any_nil, List.map_nil, List.foldl_nil,
    List.filterMap_nil, List.isEmpty_nil, List.enum_nil, List.append_nil,
    List.nil_append, List.flatten_nil, List.intersperse, Bool.not_true,
    Bool.false_and, Bool.and_false, if_true, if_false, Except.map,
    Nat.cast_zero]
  norm_num

/-- C6 witness: the concrete all-empty page yields the placeholder chunk. -/
theorem no_text_placeholder_witness :
    (performGeminiExtraction emptyInputs).map (fun r => r.legacyChunks) =
      .ok [placeholderChunk 3] :=
  no_text_placeholder emptyInputs ⟨[], 9/10⟩ ⟨[], [], []⟩ rfl rfl rfl rfl rfl

end PdfExtract
